import Mathlib

/-!
# Verification of the nanobot Slack channel core

Shallow embedding of `src/nanobot/channels/slack.py`:

* `markdown_to_slack` — the outbound markdown → Slack mrkdwn converter
  (lines 24–81 of the source);
* the block chunker inside `SlackChannel.send` (lines 166–258);
* the inbound admission filter `SlackChannel._on_socket_request` together
  with `_is_allowed`, `_should_respond_in_channel` and
  `_strip_bot_mention` (lines 269–388).

Text is modelled as `List Char`; Python regular-expression substitutions
are modelled by explicit left-to-right scanners that reproduce the
leftmost, non-overlapping matching of `re.sub` for the concrete patterns
that appear in the source.
-/

set_option maxRecDepth 20000

namespace Nanobot

/-- Text is a list of characters. -/
abbrev Str := List Char

/-- Convert a Lean string literal to the `Str` representation. -/
def str (s : String) : Str := s.toList

/-- Python's `\s` / `str.strip()` whitespace class, restricted to ASCII:
space, tab, newline, carriage return, vertical tab, form feed. -/
def isPySpace (c : Char) : Bool :=
  c = ' ' || c = '\t' || c = '\n' || c = '\r' ||
  c = Char.ofNat 11 || c = Char.ofNat 12

/-- `begins pat s` is true when `pat` is an initial segment of `s`. -/
def begins : Str → Str → Bool
  | [], _ => true
  | _ :: _, [] => false
  | a :: as, b :: bs => a = b && begins as bs

/-- Python's substring test `pat in s`. -/
def hasSub (pat : Str) : Str → Bool
  | [] => begins pat []
  | s@(_ :: rest) => begins pat s || hasSub pat rest

/-- Decimal representation of a natural number, as produced by Python
string formatting. -/
def natStr (n : Nat) : Str := (Nat.repr n).toList

/-! ## `markdown_to_slack` (source lines 24–81)

Each regex substitution of the Python function becomes one scanner.
-/

/-- Split on a single newline (Python `s.split('\n')`). -/
def splitN : Str → List Str
  | [] => [[]]
  | '\n' :: rest => [] :: splitN rest
  | c :: rest =>
    match splitN rest with
    | [] => [[c]]
    | p :: ps => (c :: p) :: ps

/-- Join with a single newline (Python `'\n'.join(ps)`). -/
def joinN : List Str → Str
  | [] => []
  | [p] => p
  | p :: ps => p ++ '\n' :: joinN ps

/-- Try the header pattern `^#{1,6}\s+(.+)$` at an anchored position
(`re.MULTILINE`).  `#{1,6}` can only match the whole leading run of `#`
(backtracking stops at a `#`); `\s+` is greedy and may span newlines;
`(.+)` is a nonempty newline-free run and `$` holds before a newline or
at the end.  When the whitespace run `w` consumes the rest of the input,
`\s+` backtracks to the largest split point inside `w` whose next
character is not a newline, keeping at least one whitespace character. -/
def tryHeader (s : Str) : Option (Str × Str) :=
  let hashes := s.takeWhile (fun c => c = '#')
  let h := hashes.length
  if 1 ≤ h ∧ h ≤ 6 then
    let afterHash := s.drop h
    let w := afterHash.takeWhile isPySpace
    if w = [] then none
    else
      match afterHash.drop w.length with
      | [] =>
        let body := w.drop 1
        let tn := (body.reverse.takeWhile (fun c => c = '\n')).length
        if tn = body.length then none
        else
          let k := 1 + (body.length - 1 - tn)
          let rest := (w.drop k).takeWhile (fun c => c ≠ '\n')
          some ('*' :: rest ++ ['*'], w.drop (k + rest.length))
      | afterW =>
        let rest := afterW.takeWhile (fun c => c ≠ '\n')
        some ('*' :: rest ++ ['*'], afterW.drop rest.length)
  else none

/-- Scanner for
`re.sub(r'^#{1,6}\s+(.+)$', r'*\1*', text, flags=re.MULTILINE)`
(source line 40).  `anchor` is true at the start of the text and right
after a newline, the positions where `^` can match; a match always ends
with a non-newline character, so scanning resumes un-anchored. -/
def headersFuel : Nat → Bool → Str → Str
  | 0, _, s => s
  | _ + 1, _, [] => []
  | n + 1, anchor, s@(c :: rest) =>
    if anchor then
      match tryHeader s with
      | some (repl, remaining) => repl ++ headersFuel n false remaining
      | none => c :: headersFuel n (c = '\n') rest
    else
      c :: headersFuel n (c = '\n') rest

/-- Header conversion, stage 1 of `markdown_to_slack` (source line 40). -/
def headers (t : Str) : Str := headersFuel t.length true t

/-- Try the link pattern `\[([^\]]+)\]\(([^)]+)\)` at the head of `s`;
on success return the replacement `<\2|\1>` and the remaining input. -/
def tryLink (s : Str) : Option (Str × Str) :=
  match s with
  | '[' :: r1 =>
    let label := r1.takeWhile (fun c => c ≠ ']')
    if label = [] then none
    else
      match r1.drop label.length with
      | ']' :: '(' :: r2 =>
        let url := r2.takeWhile (fun c => c ≠ ')')
        if url = [] then none
        else
          match r2.drop url.length with
          | ')' :: r3 => some ('<' :: url ++ '|' :: label ++ ['>'], r3)
          | _ => none
      | _ => none
  | _ => none

/-- Left-to-right scanner applying `tryLink` (source line 44). -/
def linksFuel : Nat → Str → Str
  | 0, s => s
  | _ + 1, [] => []
  | n + 1, s@(c :: rest) =>
    match tryLink s with
    | some (repl, remaining) => repl ++ linksFuel n remaining
    | none => c :: linksFuel n rest

/-- Link conversion, stage 2 of `markdown_to_slack`. -/
def links (t : Str) : Str := linksFuel t.length t

/-- Try the strikethrough pattern `~~([^~]+)~~` at the head of `s`. -/
def tryStrike (s : Str) : Option (Str × Str) :=
  match s with
  | '~' :: '~' :: r1 =>
    let content := r1.takeWhile (fun c => c ≠ '~')
    if content = [] then none
    else
      match r1.drop content.length with
      | '~' :: '~' :: r2 => some ('~' :: content ++ ['~'], r2)
      | _ => none
  | _ => none

/-- Scanner for `re.sub(r'~~([^~]+)~~', r'~\1~', text)` (source line 47). -/
def strikeFuel : Nat → Str → Str
  | 0, s => s
  | _ + 1, [] => []
  | n + 1, s@(c :: rest) =>
    match tryStrike s with
    | some (repl, remaining) => repl ++ strikeFuel n remaining
    | none => c :: strikeFuel n rest

/-- Strikethrough conversion, stage 3 of `markdown_to_slack`. -/
def strike (t : Str) : Str := strikeFuel t.length t

/-- Try the bold pattern `\*\*([^*]+)\*\*` at the head of `s`. -/
def tryBoldStars (s : Str) : Option (Str × Str) :=
  match s with
  | '*' :: '*' :: r1 =>
    let content := r1.takeWhile (fun c => c ≠ '*')
    if content = [] then none
    else
      match r1.drop content.length with
      | '*' :: '*' :: r2 => some ('*' :: content ++ ['*'], r2)
      | _ => none
  | _ => none

/-- Scanner for `re.sub(r'\*\*([^*]+)\*\*', r'*\1*', text)` (source line 52). -/
def boldStarsFuel : Nat → Str → Str
  | 0, s => s
  | _ + 1, [] => []
  | n + 1, s@(c :: rest) =>
    match tryBoldStars s with
    | some (repl, remaining) => repl ++ boldStarsFuel n remaining
    | none => c :: boldStarsFuel n rest

/-- Double-asterisk bold conversion, stage 4a of `markdown_to_slack`. -/
def boldStars (t : Str) : Str := boldStarsFuel t.length t

/-- Try the bold pattern `__([^_]+)__` at the head of `s`. -/
def tryBoldUnder (s : Str) : Option (Str × Str) :=
  match s with
  | '_' :: '_' :: r1 =>
    let content := r1.takeWhile (fun c => c ≠ '_')
    if content = [] then none
    else
      match r1.drop content.length with
      | '_' :: '_' :: r2 => some ('*' :: content ++ ['*'], r2)
      | _ => none
  | _ => none

/-- Scanner for `re.sub(r'__([^_]+)__', r'*\1*', text)` (source line 53). -/
def boldUnderFuel : Nat → Str → Str
  | 0, s => s
  | _ + 1, [] => []
  | n + 1, s@(c :: rest) =>
    match tryBoldUnder s with
    | some (repl, remaining) => repl ++ boldUnderFuel n remaining
    | none => c :: boldUnderFuel n rest

/-- Double-underscore bold conversion, stage 4b of `markdown_to_slack`. -/
def boldUnder (t : Str) : Str := boldUnderFuel t.length t

/-- The placeholder written by `save_bold` for match index `i`
(`f"__BOLD_{i}__"`, source line 67). -/
def boldPlaceholder (i : Nat) : Str := str "__BOLD_" ++ natStr i ++ str "__"

/-- Try the protection pattern `\*([^*\n]+)\*` at the head of `s`; on
success return the whole match (`match.group(0)`) and the remainder. -/
def tryBoldSpan (s : Str) : Option (Str × Str) :=
  match s with
  | '*' :: r1 =>
    let content := r1.takeWhile (fun c => c ≠ '*' ∧ c ≠ '\n')
    if content = [] then none
    else
      match r1.drop content.length with
      | '*' :: r2 => some ('*' :: content ++ ['*'], r2)
      | _ => none
  | _ => none

/-- Scanner for `bold_pattern.sub(save_bold, text)` (source lines 62–69):
each match is replaced by its numbered placeholder and recorded, in
order, in the returned list (the Python `bold_matches` accumulator). -/
def protectFuel : Nat → List Str → Str → Str × List Str
  | 0, ms, s => (s, ms)
  | _ + 1, ms, [] => ([], ms)
  | n + 1, ms, s@(c :: rest) =>
    match tryBoldSpan s with
    | some (whole, remaining) =>
      let out := protectFuel n (ms ++ [whole]) remaining
      (boldPlaceholder ms.length ++ out.1, out.2)
    | none =>
      let out := protectFuel n ms rest
      (c :: out.1, out.2)

/-- Bold-span protection, stage 5a of `markdown_to_slack`. -/
def protectBold (t : Str) : Str × List Str := protectFuel t.length [] t

/-- Try the italic pattern
`(?<!\*)\*(?!\*)([^*\n]+?)(?<!\*)\*(?!\*)` at the head of `s`, given the
character preceding the current position in the original text (`prev`).
The lazy body can only stop at the first `*` after the opener, and the
lookbehind before the closing `*` always holds because the body excludes
`*`; the two lookaheads reject doubled asterisks. -/
def tryItalic (prev : Option Char) (s : Str) : Option (Str × Str) :=
  match s with
  | '*' :: r1 =>
    if prev = some '*' then none
    else
      match r1 with
      | '*' :: _ => none
      | _ =>
        let content := r1.takeWhile (fun c => c ≠ '*' ∧ c ≠ '\n')
        if content = [] then none
        else
          match r1.drop content.length with
          | '*' :: '*' :: _ => none
          | '*' :: r2 => some ('_' :: content ++ ['_'], r2)
          | _ => none
  | _ => none

/-- Scanner for the italic substitution (source line 72).  `prev` tracks
the character of the original text just before the scan position, for
the leading lookbehind; after a match the closing `*` is the preceding
character. -/
def italicFuel : Nat → Option Char → Str → Str
  | 0, _, s => s
  | _ + 1, _, [] => []
  | n + 1, prev, s@(c :: rest) =>
    match tryItalic prev s with
    | some (repl, remaining) => repl ++ italicFuel n (some '*') remaining
    | none => c :: italicFuel n (some c) rest

/-- Italic conversion, stage 5b of `markdown_to_slack`. -/
def italics (t : Str) : Str := italicFuel t.length none t

/-- Python `s.replace(pat, repl)`: replace every occurrence, scanning
left to right and continuing after each replacement. -/
def replaceAllFuel (pat repl : Str) : Nat → Str → Str
  | 0, s => s
  | _ + 1, [] => []
  | n + 1, s@(c :: rest) =>
    if begins pat s ∧ pat ≠ [] then
      repl ++ replaceAllFuel pat repl n (s.drop pat.length)
    else
      c :: replaceAllFuel pat repl n rest

/-- Python `s.replace(pat, repl)`. -/
def replaceAll (pat repl s : Str) : Str := replaceAllFuel pat repl s.length s

/-- Placeholder restoration, stage 5c of `markdown_to_slack`
(source lines 75–76): one `str.replace` per saved match, in order. -/
def restore (p : Str × List Str) : Str :=
  p.2.enum.foldl (fun t im => replaceAll (boldPlaceholder im.1) im.2 t) p.1

/-- Try the bullet pattern `^(\s*)- ` at an anchored position:
a greedy whitespace run followed by `"- "`, replaced by `\1* `. -/
def tryBullet (s : Str) : Option (Str × Str) :=
  let w := s.takeWhile isPySpace
  match s.drop w.length with
  | '-' :: ' ' :: r => some (w ++ str "* ", r)
  | _ => none

/-- Scanner for `re.sub(r'^(\s*)- ', r'\1* ', text, flags=re.MULTILINE)`
(source line 79).  `anchor` records whether the scan position is at the
start of the text or right after a newline, where `^` can match; a match
ends in a space, so scanning resumes un-anchored. -/
def bulletsFuel : Nat → Bool → Str → Str
  | 0, _, s => s
  | _ + 1, _, [] => []
  | n + 1, anchor, s@(c :: rest) =>
    if anchor then
      match tryBullet s with
      | some (repl, remaining) => repl ++ bulletsFuel n false remaining
      | none => c :: bulletsFuel n (c = '\n') rest
    else
      c :: bulletsFuel n (c = '\n') rest

/-- Bullet conversion, stage 6 of `markdown_to_slack`. -/
def bullets (t : Str) : Str := bulletsFuel t.length true t

/-- `markdown_to_slack` (source lines 24–81): convert standard markdown
to Slack mrkdwn, returning empty input unchanged. -/
def markdown_to_slack (t : Str) : Str :=
  if t = [] then t
  else
    let t1 := headers t
    let t2 := links t1
    let t3 := strike t2
    let t4 := boldStars t3
    let t5 := boldUnder t4
    let p := protectBold t5
    let t6 := italics p.1
    let t7 := restore (t6, p.2)
    bullets t7

/-- Sanity checks of the converter against its docstring examples. -/
theorem markdown_to_slack_docstring_cases :
    markdown_to_slack (str "# Title") = str "*Title*" ∧
      markdown_to_slack (str "- item") = str "* item" ∧
      markdown_to_slack (str "~~gone~~") = str "~gone~" ∧
      markdown_to_slack (str "[a](b)") = str "<b|a>" ∧
      markdown_to_slack (str "__x__ and _y_") = str "*x* and _y_" := by
  decide

/-- C1 (evidence of the code bug): on the documented input
`"**bold** and *italic*"` the converter returns `"*bold* and *italic*"`,
not the `"*bold* and _italic_"` promised by the claim and by the
function's own docstring (`*italic* or _italic_ → _italic_`): the bold
protection pattern `\*([^*\n]+)\*` also captures the single-asterisk
italic span, which is protected and restored verbatim, so the italic
substitution never fires on it. -/
theorem C1_bold_italic_eval :
    markdown_to_slack (str "**bold** and *italic*") = str "*bold* and *italic*" ∧
      str "*bold* and *italic*" ≠ str "*bold* and _italic_" := by
  decide

/-! ## The block chunker (source lines 166–258, inside `SlackChannel.send`)

`send` converts the outbound text with `markdown_to_slack` and then
splits it into Slack blocks.  The chunking logic is a pure function of
the converted text; the surrounding web-client calls are external I/O.
A `{"type": "section"}` block is the spec's `text` block and the
`{"type": "context"}` block appended on overflow is the spec's `note`
block.
-/

/-- Slack's per-block character limit (source line 168). -/
def MAX_BLOCK_LENGTH : Nat := 3000

/-- A rendered Slack block: `text` embeds the `section`/`mrkdwn` dicts
built at source lines 173–179 and 242–248, `note` the `context` dict
built at lines 252–258. -/
inductive Block
  | text (body : Str)
  | note (body : Str)
deriving DecidableEq

/-- Split on a blank line (Python `s.split('\n\n')`, source line 188):
leftmost, non-overlapping occurrences of two consecutive newlines. -/
def splitNN : Str → List Str
  | [] => [[]]
  | '\n' :: '\n' :: rest => [] :: splitNN rest
  | c :: rest =>
    match splitNN rest with
    | [] => [[c]]
    | p :: ps => (c :: p) :: ps

/-- Join with a blank line (Python `'\n\n'.join(ps)`). -/
def joinNN : List Str → Str
  | [] => []
  | [p] => p
  | p :: ps => p ++ '\n' :: '\n' :: joinNN ps

/-- Hard truncation of an over-long line
(`line[:MAX_BLOCK_LENGTH - 3] + "..."`, source line 215). -/
def hardTruncate (line : Str) : Str :=
  line.take (MAX_BLOCK_LENGTH - 3) ++ str "..."

/-- One iteration of the line loop (source lines 206–221).  The state is
`(chunks, line_chunk, line_length)`. -/
def lineStep (st : List Str × List Str × Nat) (line : Str) :
    List Str × List Str × Nat :=
  match st with
  | (chunks, lineChunk, lineLen) =>
    if MAX_BLOCK_LENGTH < lineLen + line.length + 1 then
      let chunks1 := if lineChunk = [] then chunks else chunks ++ [joinN lineChunk]
      if MAX_BLOCK_LENGTH < line.length then
        (chunks1 ++ [hardTruncate line], [], 0)
      else
        (chunks1, [line], line.length)
    else
      (chunks, lineChunk ++ [line], lineLen + line.length + 1)

/-- Splitting of a paragraph that exceeds the block limit (source lines
202–224): run the line loop over `para.split('\n')` starting from fresh
line state, then flush any pending line chunk. -/
def processLongPara (chunks : List Str) (para : Str) : List Str :=
  match (splitN para).foldl lineStep (chunks, [], 0) with
  | (cs, [], _) => cs
  | (cs, lc, _) => cs ++ [joinN lc]

/-- One iteration of the paragraph loop (source lines 190–234).  The
state is `(chunks, current_chunk, current_length)`; `para_length`
counts `len(para) + 2` for the separator that would be re-added. -/
def paraStep (st : List Str × List Str × Nat) (para : Str) :
    List Str × List Str × Nat :=
  match st with
  | (chunks, current, curLen) =>
    let paraLen := para.length + 2
    if MAX_BLOCK_LENGTH < paraLen then
      let chunks1 := if current = [] then chunks else chunks ++ [joinNN current]
      (processLongPara chunks1 para, [], 0)
    else if MAX_BLOCK_LENGTH < curLen + paraLen then
      (chunks ++ [joinNN current], [para], paraLen)
    else
      (chunks, current ++ [para], curLen + paraLen)

/-- The paragraph loop over an already-split paragraph list, including
the final flush of `current_chunk` (source lines 190–238). -/
def codeParaChunks (paras : List Str) : List Str :=
  match paras.foldl paraStep ([], [], 0) with
  | (chunks, [], _) => chunks
  | (chunks, current, _) => chunks ++ [joinNN current]

/-- Chunking of a long message (source lines 183–238). -/
def buildChunks (t : Str) : List Str := codeParaChunks (splitNN t)

/-- Body of the trailing `context` note
(`f"_Message truncated ({k} blocks omitted)_"`, source line 256). -/
def noteBody (k : Nat) : Str :=
  str "_Message truncated (" ++ natStr k ++ str " blocks omitted)_"

/-- Conversion of chunks to blocks (source lines 240–258): the first 50
chunks become `section` blocks, and when more than 50 chunks were
produced a `context` note reporting the omitted count is appended. -/
def assembleBlocks (chunks : List Str) : List Block :=
  (chunks.take 50).map Block.text ++
    (if 50 < chunks.length then [Block.note (noteBody (chunks.length - 50))] else [])

/-- The full chunk plan of `send` (source lines 171–258): a single block
for short text, otherwise split-and-assemble. -/
def chunkPlan (t : Str) : List Block :=
  if t.length ≤ MAX_BLOCK_LENGTH then [Block.text t]
  else assembleBlocks (buildChunks t)

/-- Sanity checks of the paragraph splitter against Python
`str.split("\n\n")` semantics. -/
theorem splitNN_cases :
    splitNN (str "a\n\nb\n\n") = [str "a", str "b", []] ∧
      splitNN (str "a\n\n\nb") = [str "a", str "\nb"] := by
  decide

/-- Concrete input for the paragraph-accumulation boundary: paragraphs
of 1500, 1498 and 1 characters, total length 3003. -/
def c5input : Str :=
  List.replicate 1500 'a' ++
    '\n' :: '\n' :: (List.replicate 1498 'b' ++ '\n' :: '\n' :: ['c'])

/-! ## Chunker lemmas -/

/-- A fold preserves any invariant its step preserves. -/
theorem foldl_pres {α σ : Type} (f : σ → α → σ) (P : σ → Prop)
    (h : ∀ s a, P s → P (f s a)) :
    ∀ (l : List α) (s : σ), P s → P (l.foldl f s)
  | [], _, hs => hs
  | a :: l, s, hs => foldl_pres f P h l (f s a) (h s a hs)

theorem joinN_concat (ps : List Str) (p : Str) (h : ps ≠ []) :
    joinN (ps ++ [p]) = joinN ps ++ '\n' :: p := by
  induction ps with
  | nil => exact absurd rfl h
  | cons q qs ih =>
    cases qs with
    | nil => simp [joinN]
    | cons r rs =>
      have h2 := ih (by simp)
      calc joinN ((q :: r :: rs) ++ [p])
          = q ++ '\n' :: joinN ((r :: rs) ++ [p]) := by simp [joinN]
        _ = q ++ '\n' :: (joinN (r :: rs) ++ '\n' :: p) := by rw [h2]
        _ = joinN (q :: r :: rs) ++ '\n' :: p := by simp [joinN]

theorem joinNN_concat (ps : List Str) (p : Str) (h : ps ≠ []) :
    joinNN (ps ++ [p]) = joinNN ps ++ '\n' :: '\n' :: p := by
  induction ps with
  | nil => exact absurd rfl h
  | cons q qs ih =>
    cases qs with
    | nil => simp [joinNN]
    | cons r rs =>
      have h2 := ih (by simp)
      calc joinNN ((q :: r :: rs) ++ [p])
          = q ++ '\n' :: '\n' :: joinNN ((r :: rs) ++ [p]) := by simp [joinNN]
        _ = q ++ '\n' :: '\n' :: (joinNN (r :: rs) ++ '\n' :: '\n' :: p) := by rw [h2]
        _ = joinNN (q :: r :: rs) ++ '\n' :: '\n' :: p := by simp [joinNN]

/-- All chunks respect the block-length limit. -/
def chunksOK (cs : List Str) : Prop := ∀ c ∈ cs, c.length ≤ MAX_BLOCK_LENGTH

theorem chunksOK_concat {cs : List Str} {c : Str}
    (h : chunksOK cs) (hc : c.length ≤ MAX_BLOCK_LENGTH) : chunksOK (cs ++ [c]) := by
  intro x hx
  rcases List.mem_append.mp hx with hx | hx
  · exact h x hx
  · simp only [List.mem_singleton] at hx; exact hx ▸ hc

/-- Invariant of the line loop state `(chunks, line_chunk, line_length)`:
emitted chunks are bounded, the running length is `0` for an empty line
chunk, and otherwise dominates the joined length and stays bounded. -/
def lineInv : List Str × List Str × Nat → Prop
  | (chunks, lc, ll) =>
    chunksOK chunks ∧ (lc = [] → ll = 0) ∧
    (lc ≠ [] → (joinN lc).length ≤ ll ∧ ll ≤ MAX_BLOCK_LENGTH)

theorem length_dots : (str "...").length = 3 := rfl

theorem hardTruncate_length {line : Str} (h : MAX_BLOCK_LENGTH < line.length) :
    (hardTruncate line).length = MAX_BLOCK_LENGTH := by
  simp only [hardTruncate, List.length_append, List.length_take, length_dots,
    MAX_BLOCK_LENGTH] at *
  omega

theorem lineStep_inv (st : List Str × List Str × Nat) (line : Str)
    (h : lineInv st) : lineInv (lineStep st line) := by
  obtain ⟨chunks, lc, ll⟩ := st
  obtain ⟨hck, hemp, hne⟩ := h
  have hflush : chunksOK (if lc = [] then chunks else chunks ++ [joinN lc]) := by
    by_cases hlc : lc = []
    · simpa [hlc]
    · obtain ⟨hjoin, hbound⟩ := hne hlc
      rw [if_neg hlc]
      exact chunksOK_concat hck (hjoin.trans hbound)
  by_cases h1 : MAX_BLOCK_LENGTH < ll + line.length + 1
  · by_cases h2 : MAX_BLOCK_LENGTH < line.length
    · have hstep : lineStep (chunks, lc, ll) line =
          ((if lc = [] then chunks else chunks ++ [joinN lc]) ++ [hardTruncate line],
            [], 0) := by
        simp [lineStep, h1, h2]
      rw [hstep]
      exact ⟨chunksOK_concat hflush (le_of_eq (hardTruncate_length h2)),
        fun _ => rfl, by simp⟩
    · have hstep : lineStep (chunks, lc, ll) line =
          ((if lc = [] then chunks else chunks ++ [joinN lc]), [line], line.length) := by
        simp [lineStep, h1, h2]
      rw [hstep]
      refine ⟨hflush, by simp, fun _ => ⟨?_, by omega⟩⟩
      simp [joinN]
  · have hstep : lineStep (chunks, lc, ll) line =
        (chunks, lc ++ [line], ll + line.length + 1) := by
      simp [lineStep, h1]
    rw [hstep]
    refine ⟨hck, by simp, fun _ => ⟨?_, by omega⟩⟩
    by_cases hlc : lc = []
    · subst hlc
      simp only [List.nil_append, joinN]
      omega
    · obtain ⟨hjoin, _⟩ := hne hlc
      rw [joinN_concat lc line hlc]
      simp only [List.length_append, List.length_cons]
      omega

theorem processLongPara_ok (chunks : List Str) (para : Str)
    (h : chunksOK chunks) : chunksOK (processLongPara chunks para) := by
  have h0 : lineInv (chunks, [], 0) := ⟨h, fun _ => rfl, by simp⟩
  have hf := foldl_pres lineStep lineInv lineStep_inv (splitN para) _ h0
  unfold processLongPara
  rcases hres : (splitN para).foldl lineStep (chunks, [], 0) with ⟨cs, lc, ll⟩
  rw [hres] at hf
  obtain ⟨hcs, _, hlc⟩ := hf
  cases lc with
  | nil => exact hcs
  | cons x xs =>
    obtain ⟨hjoin, hbound⟩ := hlc (by simp)
    exact chunksOK_concat hcs (hjoin.trans hbound)

/-- Invariant of the paragraph loop state
`(chunks, current_chunk, current_length)`: emitted chunks are bounded and
`current_length` is the joined length of the current chunk plus two. -/
def paraInv : List Str × List Str × Nat → Prop
  | (chunks, cur, curLen) =>
    chunksOK chunks ∧ (cur = [] → curLen = 0) ∧
    (cur ≠ [] → (joinNN cur).length + 2 = curLen ∧ curLen ≤ MAX_BLOCK_LENGTH)

theorem paraStep_inv (st : List Str × List Str × Nat) (para : Str)
    (h : paraInv st) : paraInv (paraStep st para) := by
  obtain ⟨chunks, cur, curLen⟩ := st
  obtain ⟨hck, hemp, hne⟩ := h
  have hflush : chunksOK (if cur = [] then chunks else chunks ++ [joinNN cur]) := by
    by_cases hcur : cur = []
    · simpa [hcur]
    · obtain ⟨hjoin, hbound⟩ := hne hcur
      rw [if_neg hcur]
      exact chunksOK_concat hck (by omega)
  by_cases h1 : MAX_BLOCK_LENGTH < para.length + 2
  · -- long paragraph: flush, run the line loop, reset the state
    have hstep : paraStep (chunks, cur, curLen) para =
        (processLongPara (if cur = [] then chunks else chunks ++ [joinNN cur]) para,
          [], 0) := by
      simp [paraStep, h1]
    rw [hstep]
    exact ⟨processLongPara_ok _ _ hflush, fun _ => rfl, by simp⟩
  · by_cases h2 : MAX_BLOCK_LENGTH < curLen + (para.length + 2)
    · -- close the current chunk, start a new one with `para`
      have hcur : cur ≠ [] := by
        intro hc
        have := hemp hc
        omega
      obtain ⟨hjoin, hbound⟩ := hne hcur
      have hstep : paraStep (chunks, cur, curLen) para =
          (chunks ++ [joinNN cur], [para], para.length + 2) := by
        simp [paraStep, h1, h2]
      rw [hstep]
      refine ⟨chunksOK_concat hck (by omega), by simp, fun _ => ⟨?_, by omega⟩⟩
      simp [joinNN]
    · -- append `para` to the current chunk
      have hstep : paraStep (chunks, cur, curLen) para =
          (chunks, cur ++ [para], curLen + (para.length + 2)) := by
        simp [paraStep, h1, h2]
      rw [hstep]
      refine ⟨hck, by simp, fun _ => ⟨?_, by omega⟩⟩
      by_cases hcur : cur = []
      · subst hcur
        have h0 := hemp rfl
        simp only [List.nil_append, joinNN]
        omega
      · obtain ⟨hjoin, hbound⟩ := hne hcur
        rw [joinNN_concat cur para hcur]
        simp only [List.length_append, List.length_cons]
        omega

theorem codeParaChunks_ok (paras : List Str) : chunksOK (codeParaChunks paras) := by
  have h0 : paraInv ([], [], 0) := ⟨fun c hc => absurd hc (List.not_mem_nil c), fun _ => rfl, by simp⟩
  have hf := foldl_pres paraStep paraInv paraStep_inv paras _ h0
  unfold codeParaChunks
  rcases hres : paras.foldl paraStep ([], [], 0) with ⟨cs, cur, curLen⟩
  rw [hres] at hf
  obtain ⟨hcs, _, hcur⟩ := hf
  cases cur with
  | nil => exact hcs
  | cons x xs =>
    obtain ⟨hjoin, hbound⟩ := hcur (by simp)
    exact chunksOK_concat hcs (by omega)

theorem buildChunks_ok (t : Str) : chunksOK (buildChunks t) :=
  codeParaChunks_ok (splitNN t)

/-! ## Claim C8: short messages become a single block -/

/-- C8: for every input text of length at most 3000, `chunk` returns
exactly one `text` block whose body is the input unchanged — the
single-block short circuit of source lines 171–179. -/
theorem C8_short_single_block (t : Str) (h : t.length ≤ MAX_BLOCK_LENGTH) :
    chunkPlan t = [Block.text t] := by
  simp [chunkPlan, h]

/-- Witness for C8 at the concrete input `"hello"`. -/
theorem C8_short_single_block_witness :
    (str "hello").length ≤ MAX_BLOCK_LENGTH ∧
      chunkPlan (str "hello") = [Block.text (str "hello")] :=
  ⟨by decide, C8_short_single_block (str "hello") (by decide)⟩

/-! ## Claim C4: every text block body is bounded by 3000 -/

/-- C4: every `text` block body emitted by the chunker has length at
most `MAX_BLOCK_LENGTH` (3000), over all inputs; and the hard-truncation
of an over-long line keeps exactly `MAX_BLOCK_LENGTH - 3 = 2997`
characters and adds the 3-character ellipsis, for a total of 3000. -/
theorem C4_text_block_bound :
    (∀ (t b : Str), Block.text b ∈ chunkPlan t → b.length ≤ MAX_BLOCK_LENGTH) ∧
    (∀ line : Str, MAX_BLOCK_LENGTH < line.length →
      (line.take (MAX_BLOCK_LENGTH - 3)).length = MAX_BLOCK_LENGTH - 3 ∧
        (hardTruncate line).length = MAX_BLOCK_LENGTH) := by
  constructor
  · intro t b hb
    unfold chunkPlan at hb
    split_ifs at hb with h
    · simp only [List.mem_singleton, Block.text.injEq] at hb
      exact hb ▸ h
    · unfold assembleBlocks at hb
      rcases List.mem_append.mp hb with hb | hb
      · obtain ⟨a, ha, hab⟩ := List.mem_map.mp hb
        have hab2 : a = b := by injection hab
        exact hab2 ▸ buildChunks_ok t a (List.take_subset 50 _ ha)
      · split_ifs at hb with h50
        · simp only [List.mem_singleton] at hb
          cases hb
        · cases hb
  · intro line hline
    refine ⟨?_, hardTruncate_length hline⟩
    simp only [List.length_take, MAX_BLOCK_LENGTH] at *
    omega

/-- Witness for C4: a short input whose single block is bounded, and a
concrete over-long line whose truncation is exactly 3000 characters. -/
theorem C4_text_block_bound_witness :
    Block.text (str "ok") ∈ chunkPlan (str "ok") ∧
      (str "ok").length ≤ MAX_BLOCK_LENGTH ∧
      MAX_BLOCK_LENGTH < (List.replicate 3001 'x').length ∧
      (hardTruncate (List.replicate 3001 'x')).length = MAX_BLOCK_LENGTH := by
  have hmem : Block.text (str "ok") ∈ chunkPlan (str "ok") := by decide
  have hlong : MAX_BLOCK_LENGTH < (List.replicate 3001 'x').length := by
    simp [MAX_BLOCK_LENGTH]
  exact ⟨hmem, C4_text_block_bound.1 (str "ok") (str "ok") hmem,
    hlong, (C4_text_block_bound.2 (List.replicate 3001 'x') hlong).2⟩

/-! ## Claim C2: behaviour when more than 50 chunks are produced

The claim asserts the spec invariant `len(plan) ≤ MAX_BLOCKS = 50`, with
the trailing note taking one of the 50 slots.  The code instead appends
the note *after* the 50 kept text chunks (source lines 241–258), so the
produced sequence has 51 blocks, contradicting the source's own
"max 50 blocks per message" / "Slack limit: 50 blocks" comments. -/

/-- C2 (evidence of the code bug): whenever more than 50 chunks are
produced, the assembled block list has exactly 51 entries — the first 50
chunks as `text` blocks followed by a `note` block reporting
`totalChunks - 50` omitted chunks — not the 50 the claim asserts. -/
theorem C2_overflow_block_count (chunks : List Str) (h : 50 < chunks.length) :
    (assembleBlocks chunks).length = 51 ∧
      (assembleBlocks chunks).getLast? =
        some (Block.note (noteBody (chunks.length - 50))) := by
  unfold assembleBlocks
  rw [if_pos h]
  constructor
  · simp only [List.length_append, List.length_map, List.length_take,
      List.length_singleton]
    omega
  · exact List.getLast?_concat _

/-- Witness for C2 at a concrete list of 51 one-character chunks. -/
theorem C2_overflow_block_count_witness :
    50 < (List.replicate 51 (str "x")).length ∧
      (assembleBlocks (List.replicate 51 (str "x"))).length = 51 ∧
      (assembleBlocks (List.replicate 51 (str "x"))).getLast? =
        some (Block.note (noteBody 1)) := by
  have h := C2_overflow_block_count (List.replicate 51 (str "x")) (by decide)
  simp only [List.length_replicate] at h
  exact ⟨by decide, h.1, h.2⟩

/-! ## Claim C5: the paragraph-accumulation boundary

The claim says a new chunk is started exactly when joining the next
paragraph would push the *joined* chunk length over 3000.  The code
(source lines 191, 227) instead compares running tallies that count each
paragraph as `len(para) + 2`, so a chunk is closed as soon as the joined
length would exceed 2998.
-/

theorem splitNN_sep (rest : Str) :
    splitNN ('\n' :: '\n' :: rest) = [] :: splitNN rest := by
  simp [splitNN]

theorem splitNN_cons_ne (c : Char) (hc : c ≠ '\n') (rest : Str) :
    splitNN (c :: rest) =
      match splitNN rest with
      | [] => [[c]]
      | p :: ps => (c :: p) :: ps := by
  rw [splitNN.eq_def]
  split
  · rename_i h; cases h
  · rename_i h; injection h with h1 h2; exact absurd h1 hc
  · rename_i cc rr h hx; injection hx with h1 h2; subst h1; subst h2; rfl

theorem splitNN_sepFree_append (p rest : Str) (hp : '\n' ∉ p) :
    splitNN (p ++ '\n' :: '\n' :: rest) = p :: splitNN rest := by
  induction p with
  | nil => simpa using splitNN_sep rest
  | cons c q ih =>
    have hc : c ≠ '\n' := fun h => hp (h ▸ List.mem_cons_self c q)
    have hq : '\n' ∉ q := fun h => hp (List.mem_cons_of_mem c h)
    rw [List.cons_append, splitNN_cons_ne c hc, ih hq]

theorem splitNN_noSep (p : Str) (hp : '\n' ∉ p) : splitNN p = [p] := by
  induction p with
  | nil => rfl
  | cons c q ih =>
    have hc : c ≠ '\n' := fun h => hp (h ▸ List.mem_cons_self c q)
    have hq : '\n' ∉ q := fun h => hp (List.mem_cons_of_mem c h)
    rw [splitNN_cons_ne c hc, ih hq]

/-- Modelled from the claim's words: greedy paragraph accumulation that
starts a new chunk exactly when the joined chunk length (with the
`"\n\n"` separator) would exceed `MAX_BLOCK_LENGTH` = 3000. -/
def claimGreedyStep (st : List Str × List Str) (para : Str) :
    List Str × List Str :=
  match st with
  | (chunks, []) => (chunks, [para])
  | (chunks, current) =>
    if MAX_BLOCK_LENGTH < (joinNN (current ++ [para])).length then
      (chunks ++ [joinNN current], [para])
    else (chunks, current ++ [para])

/-- Modelled from the claim's words: the chunk list obtained by the
claimed joined-length-3000 greedy rule. -/
def claimGreedyChunks (paras : List Str) : List Str :=
  match paras.foldl claimGreedyStep ([], []) with
  | (chunks, []) => chunks
  | (chunks, current) => chunks ++ [joinNN current]

/-- The paragraph-accumulation rule the code actually implements, stated
on joined lengths: a new chunk starts exactly when the joined length
would exceed `MAX_BLOCK_LENGTH - 2` = 2998. -/
def specGreedyStep (st : List Str × List Str) (para : Str) :
    List Str × List Str :=
  match st with
  | (chunks, []) => (chunks, [para])
  | (chunks, current) =>
    if MAX_BLOCK_LENGTH - 2 < (joinNN (current ++ [para])).length then
      (chunks ++ [joinNN current], [para])
    else (chunks, current ++ [para])

/-- The chunk list obtained by the joined-length-2998 greedy rule. -/
def specGreedyChunks (paras : List Str) : List Str :=
  match paras.foldl specGreedyStep ([], []) with
  | (chunks, []) => chunks
  | (chunks, current) => chunks ++ [joinNN current]

/-- The `current_length` tally the code keeps for a current chunk. -/
def lenOf (cur : List Str) : Nat :=
  if cur = [] then 0 else (joinNN cur).length + 2

theorem paraStep_spec (chunks cur : List Str) (p : Str)
    (hp : p.length + 2 ≤ MAX_BLOCK_LENGTH) :
    paraStep (chunks, cur, lenOf cur) p =
      ((specGreedyStep (chunks, cur) p).1, (specGreedyStep (chunks, cur) p).2,
        lenOf (specGreedyStep (chunks, cur) p).2) := by
  have h1 : ¬ MAX_BLOCK_LENGTH < p.length + 2 := by omega
  cases cur with
  | nil =>
    have h2 : ¬ MAX_BLOCK_LENGTH < lenOf ([] : List Str) + (p.length + 2) := by
      rw [show lenOf ([] : List Str) = 0 from rfl]
      omega
    have hcode : paraStep (chunks, [], lenOf ([] : List Str)) p =
        (chunks, [] ++ [p], lenOf ([] : List Str) + (p.length + 2)) := by
      simp only [paraStep]
      rw [if_neg h1, if_neg h2]
    have hspec : specGreedyStep (chunks, ([] : List Str)) p = (chunks, [p]) := rfl
    rw [hcode, hspec]
    simp [lenOf, joinNN]
  | cons q qs =>
    have hlen : lenOf (q :: qs) = (joinNN (q :: qs)).length + 2 := by
      simp [lenOf]
    have hjoin : (joinNN ((q :: qs) ++ [p])).length =
        (joinNN (q :: qs)).length + 2 + p.length := by
      rw [joinNN_concat _ _ (by simp)]
      simp only [List.length_append, List.length_cons]
      omega
    have hcode : paraStep (chunks, q :: qs, lenOf (q :: qs)) p =
        if MAX_BLOCK_LENGTH < lenOf (q :: qs) + (p.length + 2) then
          (chunks ++ [joinNN (q :: qs)], [p], p.length + 2)
        else (chunks, (q :: qs) ++ [p], lenOf (q :: qs) + (p.length + 2)) := by
      simp only [paraStep]
      rw [if_neg h1]
    have hspec : specGreedyStep (chunks, q :: qs) p =
        if MAX_BLOCK_LENGTH - 2 < (joinNN ((q :: qs) ++ [p])).length then
          (chunks ++ [joinNN (q :: qs)], [p])
        else (chunks, (q :: qs) ++ [p]) := rfl
    by_cases hcond : MAX_BLOCK_LENGTH - 2 < (joinNN ((q :: qs) ++ [p])).length
    · have h2 : MAX_BLOCK_LENGTH < lenOf (q :: qs) + (p.length + 2) := by
        rw [hlen]
        simp only [MAX_BLOCK_LENGTH] at *
        omega
      rw [hcode, if_pos h2, hspec, if_pos hcond]
      simp [lenOf, joinNN]
    · have h2 : ¬ MAX_BLOCK_LENGTH < lenOf (q :: qs) + (p.length + 2) := by
        rw [hlen]
        simp only [MAX_BLOCK_LENGTH] at *
        omega
      rw [hcode, if_neg h2, hspec, if_neg hcond]
      have hfin : lenOf ((q :: qs) ++ [p]) = lenOf (q :: qs) + (p.length + 2) := by
        simp only [lenOf, hjoin,
          if_neg (show ¬((q :: qs) ++ [p] = []) by simp),
          if_neg (show ¬(q :: qs = []) by simp)]
        omega
      rw [hfin]

theorem paraFold_eq_spec (paras : List Str) :
    ∀ chunks cur : List Str,
      (∀ p ∈ paras, p.length + 2 ≤ MAX_BLOCK_LENGTH) →
      paras.foldl paraStep (chunks, cur, lenOf cur) =
        ((paras.foldl specGreedyStep (chunks, cur)).1,
          (paras.foldl specGreedyStep (chunks, cur)).2,
          lenOf (paras.foldl specGreedyStep (chunks, cur)).2) := by
  induction paras with
  | nil => intro chunks cur _; rfl
  | cons p ps ih =>
    intro chunks cur h
    have hp : p.length + 2 ≤ MAX_BLOCK_LENGTH := h p (List.mem_cons_self p ps)
    have hps : ∀ q ∈ ps, q.length + 2 ≤ MAX_BLOCK_LENGTH :=
      fun q hq => h q (List.mem_cons_of_mem p hq)
    simp only [List.foldl_cons]
    rw [paraStep_spec chunks cur p hp]
    rcases hstep : specGreedyStep (chunks, cur) p with ⟨cs, cur2⟩
    exact ih cs cur2 hps

/-- C5 (amended): whenever every paragraph of the input fits (length at
most 2998), the code's chunking equals the greedy rule that closes a
chunk exactly when the joined length would exceed 2998 — not 3000 as
the claim states. -/
theorem C5_paragraph_accumulation_amended (t : Str)
    (h : ∀ p ∈ splitNN t, p.length + 2 ≤ MAX_BLOCK_LENGTH) :
    buildChunks t = specGreedyChunks (splitNN t) := by
  unfold buildChunks codeParaChunks specGreedyChunks
  have hfold := paraFold_eq_spec (splitNN t) [] [] h
  rw [show lenOf [] = 0 from rfl] at hfold
  rw [hfold]
  rcases (splitNN t).foldl specGreedyStep ([], []) with ⟨cs, cur⟩
  cases cur with
  | nil => simp [lenOf]
  | cons x xs => simp [lenOf]

/-- Witness for the amended C5 at the concrete input `"aa\n\nb"`. -/
theorem C5_paragraph_accumulation_amended_witness :
    (∀ p ∈ splitNN (str "aa\n\nb"), p.length + 2 ≤ MAX_BLOCK_LENGTH) ∧
      buildChunks (str "aa\n\nb") = specGreedyChunks (splitNN (str "aa\n\nb")) :=
  ⟨by decide, C5_paragraph_accumulation_amended (str "aa\n\nb") (by decide)⟩

theorem c5_split :
    splitNN c5input =
      [List.replicate 1500 'a', List.replicate 1498 'b', ['c']] := by
  have hp1 : '\n' ∉ List.replicate 1500 'a' := by
    intro h
    exact absurd (List.eq_of_mem_replicate h) (by decide)
  have hp2 : '\n' ∉ List.replicate 1498 'b' := by
    intro h
    exact absurd (List.eq_of_mem_replicate h) (by decide)
  unfold c5input
  rw [splitNN_sepFree_append _ _ hp1, splitNN_sepFree_append _ _ hp2,
    splitNN_noSep _ (by decide)]

theorem c5_code :
    codeParaChunks [List.replicate 1500 'a', List.replicate 1498 'b', ['c']] =
      [List.replicate 1500 'a',
        List.replicate 1498 'b' ++ '\n' :: '\n' :: ['c']] := by
  have s1 : paraStep ([], [], 0) (List.replicate 1500 'a') =
      ([], [List.replicate 1500 'a'], 1502) := by
    have l1 : (List.replicate 1500 'a' : Str).length = 1500 :=
      List.length_replicate 1500 'a'
    simp only [paraStep, l1]
    rfl
  have s2 : paraStep ([], [List.replicate 1500 'a'], 1502) (List.replicate 1498 'b') =
      ([List.replicate 1500 'a'], [List.replicate 1498 'b'], 1500) := by
    have l2 : (List.replicate 1498 'b' : Str).length = 1498 :=
      List.length_replicate 1498 'b'
    simp only [paraStep, l2]
    rfl
  have s3 : paraStep ([List.replicate 1500 'a'], [List.replicate 1498 'b'], 1500)
        ['c'] =
      ([List.replicate 1500 'a'], [List.replicate 1498 'b', ['c']], 1503) := by
    simp only [paraStep]
    rfl
  unfold codeParaChunks
  rw [List.foldl_cons, s1, List.foldl_cons, s2, List.foldl_cons, s3, List.foldl_nil]
  rfl

theorem c5_claim :
    claimGreedyChunks [List.replicate 1500 'a', List.replicate 1498 'b', ['c']] =
      [List.replicate 1500 'a' ++ '\n' :: '\n' :: List.replicate 1498 'b',
        ['c']] := by
  have l1 : (List.replicate 1500 'a' : Str).length = 1500 :=
    List.length_replicate 1500 'a'
  have l2 : (List.replicate 1498 'b' : Str).length = 1498 :=
    List.length_replicate 1498 'b'
  have t1 : claimGreedyStep ([], []) (List.replicate 1500 'a') =
      ([], [List.replicate 1500 'a']) := rfl
  have hlen2 : (joinNN ([List.replicate 1500 'a'] ++ [List.replicate 1498 'b'])).length =
      3000 := by
    show (joinNN [List.replicate 1500 'a', List.replicate 1498 'b']).length = 3000
    simp only [joinNN, List.length_append, List.length_cons, l1, l2]
  have hc2 : ¬ MAX_BLOCK_LENGTH <
      (joinNN ([List.replicate 1500 'a'] ++ [List.replicate 1498 'b'])).length := by
    rw [hlen2]
    decide
  have t2 : claimGreedyStep ([], [List.replicate 1500 'a']) (List.replicate 1498 'b') =
      ([], [List.replicate 1500 'a', List.replicate 1498 'b']) := by
    simp only [claimGreedyStep]
    rw [if_neg hc2]
    rfl
  have hlen3 : (joinNN ([List.replicate 1500 'a', List.replicate 1498 'b'] ++
      [(['c'] : Str)])).length = 3003 := by
    show (joinNN [List.replicate 1500 'a', List.replicate 1498 'b', ['c']]).length = 3003
    simp only [joinNN, List.length_append, List.length_cons, List.length_nil, l1, l2]
  have hc3 : MAX_BLOCK_LENGTH <
      (joinNN ([List.replicate 1500 'a', List.replicate 1498 'b'] ++
        [(['c'] : Str)])).length := by
    rw [hlen3]
    decide
  have t3 : claimGreedyStep ([], [List.replicate 1500 'a', List.replicate 1498 'b'])
        ['c'] =
      ([joinNN [List.replicate 1500 'a', List.replicate 1498 'b']], [['c']]) := by
    simp only [claimGreedyStep]
    rw [if_pos hc3]
    rfl
  unfold claimGreedyChunks
  rw [List.foldl_cons, t1, List.foldl_cons, t2, List.foldl_cons, t3, List.foldl_nil]
  rfl

/-- C5 counterexample: on `c5input` (paragraphs of 1500, 1498 and 1
characters) joining the second paragraph onto the first keeps the joined
length at 3000 ≤ 3000, so the claimed rule keeps them in one chunk; the
code nevertheless closes the chunk (its tallies give 1502 + 1500 > 3000),
so the produced chunking differs from the claimed greedy rule. -/
theorem C5_paragraph_accumulation_counterexample :
    MAX_BLOCK_LENGTH < c5input.length ∧
      (joinNN [List.replicate 1500 'a', List.replicate 1498 'b']).length ≤
        MAX_BLOCK_LENGTH ∧
      buildChunks c5input ≠ claimGreedyChunks (splitNN c5input) := by
  refine ⟨?_, ?_, ?_⟩
  · simp only [c5input, List.length_append, List.length_cons, List.length_nil,
      List.length_replicate, MAX_BLOCK_LENGTH]
    omega
  · simp only [joinNN, List.length_append, List.length_cons,
      List.length_replicate, MAX_BLOCK_LENGTH]
    omega
  · rw [show buildChunks c5input = codeParaChunks (splitNN c5input) from rfl,
      c5_split, c5_code, c5_claim]
    intro h
    have h1 : List.replicate 1500 'a' =
        List.replicate 1500 'a' ++ '\n' :: '\n' :: List.replicate 1498 'b' :=
      congrArg (fun l => List.headD l ([] : Str)) h
    have h2 := congrArg List.length h1
    rw [List.length_append, List.length_cons, List.length_cons] at h2
    omega

/-! ## The inbound admission filter (source lines 269–388)

`_on_socket_request` is modelled as a pure decision function of the bot
identity, the static configuration and the event fields it reads; the
socket acknowledgement, logging, reaction and file-download calls around
it are external effects.  `Option Str` fields model `event.get(...)`
possibly returning `None`; the bot identity is `Option Str` because
`self._bot_user_id` starts as `None` (source line 94) and the code
distinguishes truthiness (lines 297, 305, 386) from `is not None`
(line 380).
-/

/-- A Slack event, with the fields `_on_socket_request` reads. -/
structure SlackEvent where
  etype : Str
  user : Option Str
  channel : Option Str
  subtype : Option Str
  text : Option Str
  files : List Str
  channelType : Option Str
deriving DecidableEq

/-- The configuration consulted by the filter: `config.dm.enabled`,
`config.dm.policy`, `config.dm.allow_from`, `config.group_policy`,
`config.group_allow_from`. -/
structure SlackCfg where
  dmEnabled : Bool
  dmPolicy : Str
  dmAllowFrom : List Str
  groupPolicy : Str
  groupAllowFrom : List Str
deriving DecidableEq

/-- Why an event was dropped.  The labels follow the spec's decision
sequence; the source's early `return`s carry no reason value. -/
inductive Reason
  | unsupportedType
  | badSubtype
  | selfAuthored
  | dedupMention
  | missingIdentity
  | notAllowed
  | noChannelResponse
deriving DecidableEq

/-- The admission decision: dispatch the sanitized text or drop. -/
inductive Decision
  | accept (text : Str)
  | ignore (r : Reason)
deriving DecidableEq

/-- Python truthiness of an optional string: `None` and `""` are falsy. -/
def truthy : Option Str → Bool
  | none => false
  | some s => !s.isEmpty

/-- `event.get("text") or ""` (source line 303). -/
def effText (ev : SlackEvent) : Str :=
  match ev.text with
  | none => []
  | some t => t

/-- `event.get("channel_type") or ""` (source line 321). -/
def effCT (ev : SlackEvent) : Str :=
  match ev.channelType with
  | none => []
  | some c => c

/-- The canonical mention token `f"<@{b}>"` (source lines 305, 380). -/
def mentionToken (b : Str) : Str := str "<@" ++ b ++ str ">"

/-- Rule 2 (source line 295): a present, truthy subtype other than
`"file_share"` marks a bot/system message. -/
def badSubtype (ev : SlackEvent) : Bool :=
  match ev.subtype with
  | none => false
  | some s => if s = [] then false else if s = str "file_share" then false else true

/-- Rule 3 (source line 297): drop the bot's own messages, only when the
bot identity is truthy. -/
def selfAuthored (bot : Option Str) (ev : SlackEvent) : Bool :=
  match bot with
  | none => false
  | some b => if b = [] then false else if ev.user = some b then true else false

/-- Rule 4 (source line 305): dedup a generic `message` carrying the
mention token with no files attached, only when the bot identity is
truthy. -/
def dedupHit (bot : Option Str) (ev : SlackEvent) : Bool :=
  match bot with
  | none => false
  | some b =>
    if ev.etype = str "message" ∧ b ≠ [] ∧
        hasSub (mentionToken b) (effText ev) = true ∧ ev.files = [] then true
    else false

/-- `_is_allowed` (source lines 361–372). -/
def isAllowed (cfg : SlackCfg) (sender chat ctype : Str) : Bool :=
  if ctype = str "im" then
    if !cfg.dmEnabled then false
    else if cfg.dmPolicy = str "allowlist" then decide (sender ∈ cfg.dmAllowFrom)
    else true
  else
    if cfg.groupPolicy = str "allowlist" then decide (chat ∈ cfg.groupAllowFrom)
    else true

/-- `_should_respond_in_channel` (source lines 374–383).  Note the
mention branch tests `is not None`, not truthiness. -/
def shouldRespondInChannel (bot : Option Str) (cfg : SlackCfg)
    (etype text chat : Str) : Bool :=
  if cfg.groupPolicy = str "open" then true
  else if cfg.groupPolicy = str "mention" then
    if etype = str "app_mention" then true
    else bot.isSome && hasSub (mentionToken (bot.getD [])) text
  else if cfg.groupPolicy = str "allowlist" then decide (chat ∈ cfg.groupAllowFrom)
  else false

/-- `re.sub(rf"<@{bot}>\s*", "", text)` (source line 388): remove each
leftmost occurrence of the mention token together with the greedy run of
whitespace following it, continuing after the removed span. -/
def removeMentionFuel (m : Str) : Nat → Str → Str
  | 0, s => s
  | _ + 1, [] => []
  | n + 1, s@(c :: rest) =>
    if begins m s = true ∧ m ≠ [] then
      removeMentionFuel m n ((s.drop m.length).dropWhile isPySpace)
    else
      c :: removeMentionFuel m n rest

/-- Python `str.strip()`: drop whitespace from both ends. -/
def pyStrip (t : Str) : Str :=
  ((t.dropWhile isPySpace).reverse.dropWhile isPySpace).reverse

/-- `_strip_bot_mention` (source lines 385–388). -/
def stripBotMention (bot : Option Str) (t : Str) : Str :=
  if t = [] ∨ truthy bot = false then t
  else pyStrip (removeMentionFuel (mentionToken (bot.getD [])) t.length t)

/-- The filter stages after deduplication (source lines 318–359):
identity check, access policy, channel-response policy, then admission
with mention stripping. -/
def afterDedup (bot : Option Str) (cfg : SlackCfg) (ev : SlackEvent) : Decision :=
  if truthy ev.user = false ∨ truthy ev.channel = false then
    .ignore .missingIdentity
  else if isAllowed cfg (ev.user.getD []) (ev.channel.getD []) (effCT ev) = false then
    .ignore .notAllowed
  else if effCT ev ≠ str "im" ∧
      shouldRespondInChannel bot cfg ev.etype (effText ev) (ev.channel.getD []) = false then
    .ignore .noChannelResponse
  else .accept (stripBotMention bot (effText ev))

/-- The decision sequence of `_on_socket_request` (source lines 283–359). -/
def onSocketEvent (bot : Option Str) (cfg : SlackCfg) (ev : SlackEvent) : Decision :=
  if ev.etype ≠ str "message" ∧ ev.etype ≠ str "app_mention" then
    .ignore .unsupportedType
  else if badSubtype ev = true then .ignore .badSubtype
  else if selfAuthored bot ev = true then .ignore .selfAuthored
  else if dedupHit bot ev = true then .ignore .dedupMention
  else afterDedup bot cfg ev

/-- Sanity check of the stripping regex: each occurrence is removed
together with the whitespace run following it, then the ends are
trimmed. -/
theorem stripBotMention_cases :
    stripBotMention (some (str "U1")) (str "  <@U1>  hello <@U1>world ") =
      str "hello world" := by
  decide

/-! ## Claim C3: mention deduplication -/

/-- C3: with a resolved bot identity, every `"message"` event whose text
contains the mention token and which has no attachments is ignored; the
identical event with attachments is not dropped by the dedup rule and is
evaluated by the subsequent rules. -/
theorem C3_mention_dedup (b : Str) (hb : b ≠ []) (cfg : SlackCfg) (ev : SlackEvent) :
    (ev.etype = str "message" → hasSub (mentionToken b) (effText ev) = true →
      ev.files = [] → ∃ r, onSocketEvent (some b) cfg ev = .ignore r) ∧
    (ev.etype = str "message" → badSubtype ev = false →
      selfAuthored (some b) ev = false → ev.files ≠ [] →
      dedupHit (some b) ev = false ∧
        onSocketEvent (some b) cfg ev = afterDedup (some b) cfg ev) := by
  constructor
  · intro hmsg hsub hfiles
    have hdedup : dedupHit (some b) ev = true := by
      simp only [dedupHit]
      rw [if_pos ⟨hmsg, hb, hsub, hfiles⟩]
    unfold onSocketEvent
    by_cases h1 : ev.etype ≠ str "message" ∧ ev.etype ≠ str "app_mention"
    · rw [if_pos h1]; exact ⟨_, rfl⟩
    rw [if_neg h1]
    by_cases h2 : badSubtype ev = true
    · rw [if_pos h2]; exact ⟨_, rfl⟩
    rw [if_neg h2]
    by_cases h3 : selfAuthored (some b) ev = true
    · rw [if_pos h3]; exact ⟨_, rfl⟩
    rw [if_neg h3, if_pos hdedup]
    exact ⟨_, rfl⟩
  · intro hmsg hsub hself hfiles
    have hdedup : dedupHit (some b) ev = false := by
      simp only [dedupHit]
      rw [if_neg (by intro hc; exact hfiles hc.2.2.2)]
    refine ⟨hdedup, ?_⟩
    unfold onSocketEvent
    rw [if_neg (by intro hc; exact hc.1 hmsg), if_neg (by simp [hsub]),
      if_neg (by simp [hself]), if_neg (by simp [hdedup])]

/-- Configuration used by concrete filter witnesses: everything open. -/
def openCfg : SlackCfg := ⟨true, str "open", [], str "open", []⟩

/-- A channel `message` event mentioning the bot, without files. -/
def c3evNoFiles : SlackEvent :=
  ⟨str "message", some (str "U2"), some (str "C1"), none,
    some (str "hi <@U1>"), [], some (str "channel")⟩

/-- The same event carrying one attached file. -/
def c3evFiles : SlackEvent :=
  ⟨str "message", some (str "U2"), some (str "C1"), none,
    some (str "hi <@U1>"), [str "F1"], some (str "channel")⟩

/-- Witness for C3: a deduplicated mention message, and the same event
with an attached file reaching the later rules. -/
theorem C3_mention_dedup_witness :
    (∃ r, onSocketEvent (some (str "U1")) openCfg c3evNoFiles = .ignore r) ∧
      dedupHit (some (str "U1")) c3evFiles = false ∧
      onSocketEvent (some (str "U1")) openCfg c3evFiles =
        afterDedup (some (str "U1")) openCfg c3evFiles := by
  refine ⟨(C3_mention_dedup (str "U1") (by decide) openCfg c3evNoFiles).1
      (by decide) (by decide) (by decide), ?_, ?_⟩
  · exact ((C3_mention_dedup (str "U1") (by decide) openCfg c3evFiles).2 (by decide)
      (by decide) (by decide) (by decide)).1
  · exact ((C3_mention_dedup (str "U1") (by decide) openCfg c3evFiles).2 (by decide)
      (by decide) (by decide) (by decide)).2

/-! ## Claim C7: group access policy -/

theorem s_allowlist_ne_open : str "allowlist" ≠ str "open" := by decide

theorem s_allowlist_ne_mention : str "allowlist" ≠ str "mention" := by decide

theorem s_mention_ne_open : str "mention" ≠ str "open" := by decide

/-- C7: for a group/channel event that passes the earlier rules, mode
`"allowlist"` admits exactly when the chat id is in the group allow set,
and any mode other than `"open"`/`"mention"`/`"allowlist"` yields an
`Ignore` (deny-by-default); the decision function is total, so no input
raises. -/
theorem C7_group_access_policy (bot : Option Str) (cfg : SlackCfg) (ev : SlackEvent)
    (h1 : ev.etype = str "message" ∨ ev.etype = str "app_mention")
    (h2 : badSubtype ev = false)
    (h3 : selfAuthored bot ev = false)
    (h4 : dedupHit bot ev = false)
    (h5 : truthy ev.user = true)
    (h6 : truthy ev.channel = true)
    (h7 : effCT ev ≠ str "im") :
    (cfg.groupPolicy = str "allowlist" →
      ((∃ o, onSocketEvent bot cfg ev = .accept o) ↔
        ev.channel.getD [] ∈ cfg.groupAllowFrom)) ∧
    (cfg.groupPolicy ≠ str "open" → cfg.groupPolicy ≠ str "mention" →
      cfg.groupPolicy ≠ str "allowlist" →
      onSocketEvent bot cfg ev = .ignore .noChannelResponse) := by
  have hpass : onSocketEvent bot cfg ev = afterDedup bot cfg ev := by
    unfold onSocketEvent
    rw [if_neg (by intro hc; rcases h1 with h | h; exacts [hc.1 h, hc.2 h]),
      if_neg (by simp [h2]), if_neg (by simp [h3]), if_neg (by simp [h4])]
  constructor
  · intro hal
    rw [hpass]
    unfold afterDedup
    rw [if_neg (by simp [h5, h6])]
    by_cases hmem : ev.channel.getD [] ∈ cfg.groupAllowFrom
    · have hallow : isAllowed cfg (ev.user.getD []) (ev.channel.getD [])
          (effCT ev) = true := by
        simp [isAllowed, h7, hal, hmem]
      have hresp : shouldRespondInChannel bot cfg ev.etype (effText ev)
          (ev.channel.getD []) = true := by
        simp [shouldRespondInChannel, hal, s_allowlist_ne_open,
          s_allowlist_ne_mention, hmem]
      rw [if_neg (by simp [hallow]), if_neg (by simp [hresp])]
      exact ⟨fun _ => hmem, fun _ => ⟨_, rfl⟩⟩
    · have hallow : isAllowed cfg (ev.user.getD []) (ev.channel.getD [])
          (effCT ev) = false := by
        simp [isAllowed, h7, hal, hmem]
      rw [if_pos (by simp [hallow])]
      exact ⟨fun ⟨o, ho⟩ => absurd ho (by simp), fun h => absurd h hmem⟩
  · intro ho hm ha
    rw [hpass]
    unfold afterDedup
    have hallow : isAllowed cfg (ev.user.getD []) (ev.channel.getD [])
        (effCT ev) = true := by
      simp [isAllowed, h7, ha]
    have hresp : shouldRespondInChannel bot cfg ev.etype (effText ev)
        (ev.channel.getD []) = false := by
      simp [shouldRespondInChannel, ho, hm, ha]
    rw [if_neg (by simp [h5, h6]), if_neg (by simp [hallow]),
      if_pos ⟨h7, hresp⟩]

/-- A channel `app_mention` event used by policy witnesses. -/
def c7ev : SlackEvent :=
  ⟨str "app_mention", some (str "U2"), some (str "C1"), none,
    some (str "hi"), [], some (str "channel")⟩

/-- Witness for C7: under `"allowlist"` with the channel in the allow
set the event is admitted, and under the unrecognized mode `"weird"`
the event is ignored. -/
theorem C7_group_access_policy_witness :
    ((∃ o, onSocketEvent (some (str "U1"))
        ⟨true, str "open", [], str "allowlist", [str "C1"]⟩ c7ev = .accept o) ↔
      c7ev.channel.getD [] ∈ [str "C1"]) ∧
      onSocketEvent (some (str "U1"))
        ⟨true, str "open", [], str "weird", []⟩ c7ev =
        .ignore .noChannelResponse :=
  ⟨(C7_group_access_policy (some (str "U1"))
      ⟨true, str "open", [], str "allowlist", [str "C1"]⟩ c7ev
      (Or.inr (by decide)) (by decide) (by decide) (by decide) (by decide)
      (by decide) (by decide)).1 (by decide),
    (C7_group_access_policy (some (str "U1"))
      ⟨true, str "open", [], str "weird", []⟩ c7ev
      (Or.inr (by decide)) (by decide) (by decide) (by decide) (by decide)
      (by decide) (by decide)).2 (by decide) (by decide) (by decide)⟩

/-! ## Claim C9: behaviour with an unresolved bot identity

The claim treats "absent" and "empty string" alike, but the mention-mode
text branch (source line 380) tests `is not None` and builds the token
`"<@>"` from an empty-string identity, so an empty-string identity can
accept a generic message; only an absent (`None`) identity satisfies all
three claimed properties.
-/

/-- A group configuration in mention mode. -/
def c9cfg : SlackCfg := ⟨true, str "open", [], str "mention", []⟩

/-- A generic channel message containing the degenerate token `<@>`. -/
def c9ev : SlackEvent :=
  ⟨str "message", some (str "U2"), some (str "C1"), none,
    some (str "<@> hi"), [], some (str "channel")⟩

/-- C9 counterexample: with the bot identity equal to the *empty string*
(not `None`), a `"message"` event whose text contains `"<@>"` is
admitted under group mode `"mention"`, so the text-contains branch does
accept and the claim's third property fails for empty identities. -/
theorem C9_unresolved_bot_counterexample :
    c9ev.etype = str "message" ∧ c9ev.etype ≠ str "app_mention" ∧
      c9cfg.groupPolicy = str "mention" ∧
      onSocketEvent (some []) c9cfg c9ev = Decision.accept (str "<@> hi") := by
  decide

/-- C9 (amended): with an *absent* bot identity (`None`), the
self-authored rule never fires, the dedup rule never fires, and under
group mode `"mention"` a non-DM event is admitted only if it is a
dedicated `app_mention` event. -/
theorem C9_unresolved_bot_amended (cfg : SlackCfg) (ev : SlackEvent) :
    onSocketEvent none cfg ev ≠ .ignore .selfAuthored ∧
      onSocketEvent none cfg ev ≠ .ignore .dedupMention ∧
      (∀ o : Str, cfg.groupPolicy = str "mention" → effCT ev ≠ str "im" →
        onSocketEvent none cfg ev = .accept o → ev.etype = str "app_mention") := by
  have hself : selfAuthored none ev = false := rfl
  have hdedup : dedupHit none ev = false := rfl
  have hrun : onSocketEvent none cfg ev =
      if ev.etype ≠ str "message" ∧ ev.etype ≠ str "app_mention" then
        Decision.ignore .unsupportedType
      else if badSubtype ev = true then Decision.ignore .badSubtype
      else afterDedup none cfg ev := by
    unfold onSocketEvent
    rw [hself, hdedup, if_neg Bool.false_ne_true, if_neg Bool.false_ne_true]
  refine ⟨?_, ?_, ?_⟩
  · rw [hrun]
    split_ifs
    · simp
    · simp
    · unfold afterDedup
      split_ifs <;> simp
  · rw [hrun]
    split_ifs
    · simp
    · simp
    · unfold afterDedup
      split_ifs <;> simp
  · intro o hpol him hadm
    rw [hrun] at hadm
    split_ifs at hadm
    by_cases hety : ev.etype = str "app_mention"
    · exact hety
    · exfalso
      have hresp : shouldRespondInChannel none cfg ev.etype (effText ev)
          (ev.channel.getD []) = false := by
        simp [shouldRespondInChannel, hpol, s_mention_ne_open, hety]
      unfold afterDedup at hadm
      split_ifs at hadm with ha hb hc
      · exact absurd ⟨him, hresp⟩ hc

/-- Witness for the amended C9: an `app_mention` event admitted under
mention mode with an absent bot identity. -/
theorem C9_unresolved_bot_amended_witness :
    onSocketEvent none c9cfg
        ⟨str "app_mention", some (str "U2"), some (str "C1"), none,
          some (str "hi"), [], some (str "channel")⟩ ≠
      .ignore .selfAuthored ∧
    (⟨str "app_mention", some (str "U2"), some (str "C1"), none,
        some (str "hi"), [], some (str "channel")⟩ : SlackEvent).etype =
      str "app_mention" :=
  ⟨(C9_unresolved_bot_amended c9cfg _).1,
    (C9_unresolved_bot_amended c9cfg
        ⟨str "app_mention", some (str "U2"), some (str "C1"), none,
          some (str "hi"), [], some (str "channel")⟩).2.2
      (str "hi") (by decide) (by decide) (by decide)⟩

/-! ## Claim C6: mention stripping

The regex strips each mention occurrence together with the whole
whitespace run following it (`\s*`), not just one space, and a single
left-to-right pass can splice the surrounding characters into a *new*
occurrence of the token (e.g. `"<@<@U1>U1>"` strips to `"<@U1>"`), so
the claim's "no occurrence of the mention token remains" fails in
general.  It does hold whenever every `<` of the original text starts an
occurrence of the token.
-/

/-- Guard for the amended C6: every `<` in the text begins an occurrence
of `m`. -/
def ltOk (m : Str) : Str → Bool
  | [] => true
  | s@(c :: rest) => (if c = '<' then begins m s else true) && ltOk m rest

theorem ltOk_rest {m : Str} {c : Char} {rest : Str}
    (h : ltOk m (c :: rest) = true) : ltOk m rest = true := by
  simp only [ltOk, Bool.and_eq_true] at h
  exact h.2

theorem ltOk_drop (m : Str) (k : Nat) :
    ∀ t, ltOk m t = true → ltOk m (t.drop k) = true := by
  induction k with
  | zero => intro t h; simpa
  | succ k ih =>
    intro t h
    cases t with
    | nil => simpa using h
    | cons c rest => simpa using ih rest (ltOk_rest h)

theorem ltOk_dropWhile (m : Str) (p : Char → Bool) :
    ∀ t, ltOk m t = true → ltOk m (t.dropWhile p) = true := by
  intro t
  induction t with
  | nil => intro h; simpa using h
  | cons c rest ih =>
    intro h
    rw [List.dropWhile_cons]
    split_ifs with hp
    · exact ih (ltOk_rest h)
    · exact h

theorem length_dropWhile_le_self (p : Char → Bool) :
    ∀ t : Str, (t.dropWhile p).length ≤ t.length := by
  intro t
  induction t with
  | nil => simp
  | cons a rest ih =>
    rw [List.dropWhile_cons]
    split_ifs with hp
    · exact ih.trans (by simp)
    · simp

theorem removeMention_no_lt (m : Str) (hm : ∃ mr, m = '<' :: mr) :
    ∀ (n : Nat) (t : Str), t.length ≤ n → ltOk m t = true →
      '<' ∉ removeMentionFuel m n t := by
  obtain ⟨mr, rfl⟩ := hm
  intro n
  induction n with
  | zero =>
    intro t hlen _
    have ht : t = [] := List.eq_nil_of_length_eq_zero (Nat.le_zero.mp hlen)
    subst ht
    simp [removeMentionFuel]
  | succ n ih =>
    intro t hlen hok
    cases t with
    | nil => simp [removeMentionFuel]
    | cons c rest =>
      by_cases hb : begins ('<' :: mr) (c :: rest) = true ∧ ('<' :: mr) ≠ []
      · have hstep : removeMentionFuel ('<' :: mr) (n + 1) (c :: rest) =
            removeMentionFuel ('<' :: mr) n
              (((c :: rest).drop ('<' :: mr).length).dropWhile isPySpace) := by
          simp only [removeMentionFuel]
          rw [if_pos hb]
        rw [hstep]
        apply ih
        · have h2 := length_dropWhile_le_self isPySpace
            ((c :: rest).drop ('<' :: mr).length)
          have h3 : ((c :: rest).drop ('<' :: mr).length).length =
              (c :: rest).length - ('<' :: mr).length := List.length_drop _ _
          simp only [List.length_cons] at hlen h2 h3 ⊢
          omega
        · exact ltOk_dropWhile _ _ _ (ltOk_drop _ _ _ hok)
      · have hstep : removeMentionFuel ('<' :: mr) (n + 1) (c :: rest) =
            c :: removeMentionFuel ('<' :: mr) n rest := by
          simp only [removeMentionFuel]
          rw [if_neg hb]
        rw [hstep]
        have hc : c ≠ '<' := by
          intro hc
          subst hc
          have hbeg : begins ('<' :: mr) ('<' :: rest) = true := by
            simp only [ltOk, Bool.and_eq_true] at hok
            simpa using hok.1
          exact hb ⟨hbeg, by simp⟩
        intro hmem
        rcases List.mem_cons.mp hmem with h | h
        · exact hc h.symm
        · exact ih rest (by simp only [List.length_cons] at hlen; omega)
            (ltOk_rest hok) h

theorem mem_dropWhile {c : Char} {p : Char → Bool} :
    ∀ {t : Str}, c ∈ t.dropWhile p → c ∈ t := by
  intro t
  induction t with
  | nil => simp
  | cons a rest ih =>
    intro h
    rw [List.dropWhile_cons] at h
    split_ifs at h with hp
    · exact List.mem_cons_of_mem a (ih h)
    · exact h

theorem mem_pyStrip {c : Char} {t : Str} (h : c ∈ pyStrip t) : c ∈ t := by
  unfold pyStrip at h
  rw [List.mem_reverse] at h
  have h2 := mem_dropWhile h
  rw [List.mem_reverse] at h2
  exact mem_dropWhile h2

theorem hasSub_head_mem {mr : Str} :
    ∀ {h : Str}, hasSub ('<' :: mr) h = true → '<' ∈ h := by
  intro h
  induction h with
  | nil => intro hh; simp [hasSub, begins] at hh
  | cons a rest ih =>
    intro hh
    simp only [hasSub, Bool.or_eq_true] at hh
    rcases hh with hh | hh
    · simp only [begins, Bool.and_eq_true, decide_eq_true_eq] at hh
      exact List.mem_cons.mpr (Or.inl hh.1)
    · exact List.mem_cons_of_mem a (ih hh)

theorem mentionToken_eq (b : Str) :
    mentionToken b = '<' :: '@' :: (b ++ ['>']) := rfl

/-- Inversion: an admitted event's payload is the stripped text. -/
theorem onSocketEvent_accept (bot : Option Str) (cfg : SlackCfg) (ev : SlackEvent)
    (o : Str) (h : onSocketEvent bot cfg ev = .accept o) :
    o = stripBotMention bot (effText ev) := by
  unfold onSocketEvent afterDedup at h
  split_ifs at h
  injection h with h2
  exact h2.symm

/-- An `app_mention` event whose text has nested token material. -/
def c6cx : SlackEvent :=
  ⟨str "app_mention", some (str "U9"), some (str "C1"), none,
    some (str "<@<@U1>U1>"), [], some (str "channel")⟩

/-- C6 counterexample: the admitted text for `"<@<@U1>U1>"` is
`"<@U1>"` — removal of the inner occurrence splices together a new
occurrence of the mention token, so "no occurrence of the mention token
remains in the admitted text" is false. -/
theorem C6_mention_strip_counterexample :
    onSocketEvent (some (str "U1")) openCfg c6cx = Decision.accept (str "<@U1>") ∧
      hasSub (mentionToken (str "U1")) (str "<@U1>") = true := by
  decide

/-- C6 (amended): sanitization removes each occurrence of the mention
token together with the whitespace run following it in one left-to-right
pass, then trims; if every `<` of the original text begins an occurrence
of the token, no occurrence remains in the admitted text (otherwise the
splice of the remaining pieces may itself contain the token). -/
theorem C6_mention_strip_amended (b : Str) (cfg : SlackCfg) (ev : SlackEvent)
    (o : Str) (hb : b ≠ [])
    (hadm : onSocketEvent (some b) cfg ev = .accept o)
    (hguard : ltOk (mentionToken b) (effText ev) = true) :
    hasSub (mentionToken b) o = false := by
  have ho : o = stripBotMention (some b) (effText ev) :=
    onSocketEvent_accept _ _ _ _ hadm
  subst ho
  have htb : truthy (some b) = true := by
    simp [truthy, hb]
  unfold stripBotMention
  by_cases hcase : effText ev = [] ∨ truthy (some b) = false
  · rw [if_pos hcase]
    have hnil : effText ev = [] := by
      rcases hcase with h | h
      · exact h
      · rw [htb] at h; cases h
    rw [hnil, mentionToken_eq]
    simp [hasSub, begins]
  · rw [if_neg hcase]
    have hnl : '<' ∉ removeMentionFuel (mentionToken b)
        (effText ev).length (effText ev) :=
      removeMention_no_lt (mentionToken b) ⟨'@' :: (b ++ ['>']), mentionToken_eq b⟩
        (effText ev).length (effText ev) le_rfl hguard
    rcases hval : hasSub (mentionToken b)
        (pyStrip (removeMentionFuel (mentionToken ((some b).getD []))
          (effText ev).length (effText ev))) with _ | _
    · rfl
    · exfalso
      rw [mentionToken_eq] at hval
      exact hnl (mem_pyStrip (hasSub_head_mem hval))

/-- An `app_mention` event with a normal mention in running text. -/
def c6wev : SlackEvent :=
  ⟨str "app_mention", some (str "U9"), some (str "C1"), none,
    some (str "hi <@U1> there"), [], some (str "channel")⟩

/-- Witness for the amended C6: `"hi <@U1> there"` is admitted as
`"hi there"`, the guard holds, and no token remains. -/
theorem C6_mention_strip_amended_witness :
    (str "U1" : Str) ≠ [] ∧
      onSocketEvent (some (str "U1")) openCfg c6wev = .accept (str "hi there") ∧
      ltOk (mentionToken (str "U1")) (effText c6wev) = true ∧
      hasSub (mentionToken (str "U1")) (str "hi there") = false :=
  ⟨by decide, by decide, by decide,
    C6_mention_strip_amended (str "U1") openCfg c6wev (str "hi there")
      (by decide) (by decide) (by decide)⟩

/-! ## Claim C10: direct-message policy is allow-by-default -/

/-- C10: for a direct-message event with DM enabled, any policy string
other than `"allowlist"` — including unrecognized ones — admits the
sender unconditionally, and the full pipeline admits such an event; in
contrast, an unrecognized group mode makes `_should_respond_in_channel`
deny. -/
theorem C10_dm_default_allow :
    (∀ (cfg : SlackCfg) (sender chat : Str), cfg.dmEnabled = true →
      cfg.dmPolicy ≠ str "allowlist" →
      isAllowed cfg sender chat (str "im") = true) ∧
    (∀ (bot : Option Str) (cfg : SlackCfg) (etype text chat : Str),
      cfg.groupPolicy ≠ str "open" → cfg.groupPolicy ≠ str "mention" →
      cfg.groupPolicy ≠ str "allowlist" →
      shouldRespondInChannel bot cfg etype text chat = false) ∧
    (∀ (bot : Option Str) (cfg : SlackCfg) (ev : SlackEvent),
      (ev.etype = str "message" ∨ ev.etype = str "app_mention") →
      badSubtype ev = false → selfAuthored bot ev = false →
      dedupHit bot ev = false → truthy ev.user = true → truthy ev.channel = true →
      effCT ev = str "im" → cfg.dmEnabled = true → cfg.dmPolicy ≠ str "allowlist" →
      onSocketEvent bot cfg ev = .accept (stripBotMention bot (effText ev))) := by
  refine ⟨?_, ?_, ?_⟩
  · intro cfg sender chat hen hpol
    simp [isAllowed, hen, hpol]
  · intro bot cfg etype text chat h1 h2 h3
    simp [shouldRespondInChannel, h1, h2, h3]
  · intro bot cfg ev htype hsub hself hdedup huser hchan him hen hpol
    unfold onSocketEvent
    rw [if_neg (by intro hc; rcases htype with h | h; exacts [hc.1 h, hc.2 h]),
      if_neg (by simp [hsub]), if_neg (by simp [hself]), if_neg (by simp [hdedup])]
    unfold afterDedup
    rw [if_neg (by simp [huser, hchan]),
      if_neg (by simp [him, isAllowed, hen, hpol]),
      if_neg (by simp [him])]

/-- Witness for C10 with an unrecognized DM policy `"weird"` and an
unrecognized group mode `"weird"`. -/
theorem C10_dm_default_allow_witness :
    isAllowed ⟨true, str "weird", [], str "open", []⟩ (str "U2") (str "D1")
        (str "im") = true ∧
      shouldRespondInChannel (some (str "U1"))
        ⟨true, str "open", [], str "weird", []⟩ (str "message") (str "hi")
        (str "C1") = false ∧
      onSocketEvent (some (str "U1")) ⟨true, str "weird", [], str "open", []⟩
        ⟨str "message", some (str "U2"), some (str "D1"), none, some (str "hi"),
          [], some (str "im")⟩ =
        .accept (stripBotMention (some (str "U1")) (str "hi")) :=
  ⟨C10_dm_default_allow.1 _ (str "U2") (str "D1") (by decide) (by decide),
    C10_dm_default_allow.2.1 _ _ (str "message") (str "hi") (str "C1")
      (by decide) (by decide) (by decide),
    C10_dm_default_allow.2.2 _ _ _ (Or.inl (by decide)) (by decide) (by decide)
      (by decide) (by decide) (by decide) (by decide) (by decide) (by decide)⟩

end Nanobot
